import Mathlib

/-!
Verification of the audio ingestion pipeline in
`src-tauri/src/audio_toolkit/audio/file_decoder.rs`.

The pipeline decodes an audio file to mono samples at a fixed target rate:
track selection, a packet decode loop with two-tier error handling, a
channel mixdown, and a block-based resampling stage with zero padding and
exact-length truncation.

Samples (`f32` in the source) are modelled as rationals, so the arithmetic
of the mixdown and of the length computations is exact.  The external
collaborators (the symphonia demuxer/decoder and the rubato resampler) are
modelled at their interface boundary: the demuxer is a finite list of read
events, the decoder outcome is attached to each packet event, and the
resampler is a stateful per-block process function.  The f64 expression
`(len * to_hz / from_hz).ceil() as usize` of the source is modelled as the
exact natural-number ceiling `(len * to_hz + (from_hz - 1)) / from_hz`.
-/

namespace Handy

/-- `TARGET_SAMPLE_RATE` from file_decoder.rs (16 kHz). -/
def TARGET_SAMPLE_RATE : Nat := 16000

/-- `CHUNK_SIZE` from `resample` in file_decoder.rs. -/
def CHUNK_SIZE : Nat := 1024

/-- The null codec marker (`CODEC_TYPE_NULL`, numeric id 0 in symphonia). -/
def CODEC_TYPE_NULL : Nat := 0

/-- Rust `slice::chunks c`: consecutive chunks of size `c`, the final chunk
may be shorter.  (The source only calls it with `c = CHUNK_SIZE > 0`.) -/
def chunks {α : Type} (c : Nat) (xs : List α) : List (List α) :=
  if h : c = 0 ∨ xs.length = 0 then [] else xs.take c :: chunks c (xs.drop c)
termination_by xs.length
decreasing_by
  push_neg at h
  simp only [List.length_drop]
  omega

/-- Rust `slice::chunks_exact c`: consecutive chunks of exactly size `c`,
any shorter trailing remainder is dropped. -/
def chunksExact {α : Type} (c : Nat) (xs : List α) : List (List α) :=
  if h : c = 0 ∨ xs.length < c then [] else xs.take c :: chunksExact c (xs.drop c)
termination_by xs.length
decreasing_by
  push_neg at h
  simp only [List.length_drop]
  omega

/-- The mixdown of `decode_audio_file`: if `channels > 1`, average each
frame of `channels` interleaved samples (`chunks_exact(channels)` then
`sum / channels`); one channel is passed through unchanged. -/
def mixToMono (channels : Nat) (interleaved : List ℚ) : List ℚ :=
  if channels > 1 then
    (chunksExact channels interleaved).map (fun frame => frame.sum / (channels : ℚ))
  else interleaved

/-- The `expected_len` computation of `resample`:
`(samples.len() as f64 * to_hz as f64 / from_hz as f64).ceil() as usize`,
modelled as the exact ceiling of `len * to_hz / from_hz`. -/
def expected_len (len to_hz from_hz : Nat) : Nat :=
  (len * to_hz + (from_hz - 1)) / from_hz

/-- Interface of the rubato resampler as used by `resample`:
a fallible constructor (`FftFixedIn::new`) taking the two rates and the
fixed input block size, and a fallible stateful per-block `process`. -/
structure ResamplerSpec (σ : Type) where
  new : Nat → Nat → Nat → Option σ
  process : σ → List ℚ → Option (σ × List ℚ)

/-- Zero padding of the final chunk in `resample`: a chunk shorter than
`CHUNK_SIZE` is right-padded with zeros to full size. -/
def padChunk (chunk : List ℚ) : List ℚ :=
  if chunk.length < CHUNK_SIZE then
    chunk ++ List.replicate (CHUNK_SIZE - chunk.length) 0
  else chunk

/-- The processing loop of `resample`: feed each (padded) chunk through the
stateful resampler in order and concatenate the outputs; any per-block
failure aborts. -/
def processChunks {σ : Type} (rs : ResamplerSpec σ) : σ → List (List ℚ) → Option (List ℚ)
  | _, [] => some []
  | st, c :: cs =>
    match rs.process st (padChunk c) with
    | none => none
    | some (st2, out) =>
      match processChunks rs st2 cs with
      | none => none
      | some rest => some (out ++ rest)

/-- `resample` from file_decoder.rs: construct the resampler, process the
`CHUNK_SIZE` chunks of the input (the last one zero-padded), concatenate,
and truncate the result to `expected_len`.  `none` models the `Err` paths
(construction failure, per-block processing failure). -/
def resample {σ : Type} (rs : ResamplerSpec σ) (samples : List ℚ) (from_hz to_hz : Nat) :
    Option (List ℚ) :=
  match rs.new from_hz to_hz CHUNK_SIZE with
  | none => none
  | some st =>
    match processChunks rs st (chunks CHUNK_SIZE samples) with
    | none => none
    | some output => some (output.take (expected_len samples.length to_hz from_hz))

/-- Modelled from the spec: the rubato `FftFixedIn` resampler is an external
collaborator, not part of this repository.  Per the spec, construction fails
on an invalid rate pair, each fixed-size block is converted at the rate
ratio, and the concatenated natural output may overshoot the exact expected
length (the overshoot is discarded by the final truncation).  This model
emits `ceil(CHUNK_SIZE * to_hz / from_hz)` samples per processed block. -/
def specResampler (from_hz to_hz : Nat) : ResamplerSpec Unit where
  new := fun f t _ => if f = 0 ∨ t = 0 then none else some ()
  process := fun _ _ => some ((), List.replicate (expected_len CHUNK_SIZE to_hz from_hz) 0)

/-- A resampler whose construction always fails; used to show that code
paths that never construct a resampler are independent of it. -/
def noResampler : ResamplerSpec Unit where
  new := fun _ _ _ => none
  process := fun _ _ => none

/-- Outcome of `decoder.decode(&packet)` for one packet:
a decoded block of PCM frames (each frame lists the per-channel samples in
interleaved order), the recoverable `Error::DecodeError` variant, or any
other (fatal) decoder error. -/
inductive DecodeOutcome : Type where
  | ok (frames : List (List ℚ))
  | recoverable
  | fatal

/-- One result of `format_reader.next_packet()`: a packet tagged with its
track id (carrying its decode outcome), the `IoError`/`UnexpectedEof`
end-of-stream condition, or any other read error. -/
inductive ReadEvent : Type where
  | packet (track_id : Nat) (outcome : DecodeOutcome)
  | endOfStream
  | readError

/-- Result of the packet decode loop.  `exhausted` marks the end of the
modelled finite event list without a terminal event; a real format reader
always eventually yields `UnexpectedEof` or an error, so `exhausted` is
unreachable for faithful event streams. -/
inductive LoopResult : Type where
  | ok (samples : List ℚ)
  | packetReadError
  | fatalDecodeError
  | exhausted

/-- The packet decode loop of `decode_audio_file`: stop successfully on
end-of-stream, abort on any other read error, skip packets of other tracks,
skip packets with a recoverable decode error, abort on a fatal decode
error, skip decoded blocks of zero frames, and append every other decoded
block (interleaved) to the accumulator. -/
def decodeLoop (track_id : Nat) (acc : List ℚ) : List ReadEvent → LoopResult
  | [] => .exhausted
  | .endOfStream :: _ => .ok acc
  | .readError :: _ => .packetReadError
  | .packet tid outcome :: rest =>
    if tid ≠ track_id then decodeLoop track_id acc rest
    else
      match outcome with
      | .recoverable => decodeLoop track_id acc rest
      | .fatal => .fatalDecodeError
      | .ok frames =>
        if frames.length = 0 then decodeLoop track_id acc rest
        else decodeLoop track_id (acc ++ frames.flatten) rest

/-- An event that neither terminates nor aborts the decode loop: a packet
that is skipped (other track) or decoded without a fatal error. -/
def okEvent (track_id : Nat) : ReadEvent → Bool
  | .packet tid o =>
    if tid = track_id then
      match o with
      | .fatal => false
      | _ => true
    else true
  | _ => false

/-- Well-formedness of a decoded block with respect to the selected track's
channel count: every frame carries exactly `channels` samples (the contract
of symphonia's interleaved `SampleBuffer`). -/
def framesWF (channels : Nat) : DecodeOutcome → Bool
  | .ok frames => frames.all (fun f => f.length == channels)
  | _ => true

/-- Well-formedness of a read event: every decoded block is well formed. -/
def eventWF (channels : Nat) : ReadEvent → Bool
  | .packet _ o => framesWF channels o
  | _ => true

/-- Track parameters as read from the container by `decode_audio_file`:
codec id, optional sample rate, optional channel count, track id. -/
structure Track : Type where
  codec : Nat
  sampleRate : Option Nat
  channels : Option Nat
  id : Nat

/-- The track-selection predicate:
`t.codec_params.codec != CODEC_TYPE_NULL`. -/
def isAudioTrack (t : Track) : Bool := t.codec != CODEC_TYPE_NULL

/-- The error cases of `decode_audio_file` modelled by the claims.
`streamExhausted` is the model artifact for `LoopResult.exhausted`. -/
inductive DecodeError : Type where
  | noAudioTrack
  | missingSampleRate
  | packetReadError
  | fatalDecodeError
  | emptyDecodeResult
  | resampleError
  | streamExhausted
deriving DecidableEq

/-- Track selection of `decode_audio_file`: the first track whose codec is
not `CODEC_TYPE_NULL` (error if none), its sample rate (error if absent),
and its channel count, defaulting to 1 (`unwrap_or(1)`). -/
def selectTrack (tracks : List Track) : Except DecodeError (Nat × Nat × Nat) :=
  match tracks.find? isAudioTrack with
  | none => Except.error DecodeError.noAudioTrack
  | some track =>
    match track.sampleRate with
    | none => Except.error DecodeError.missingSampleRate
    | some rate => Except.ok (track.id, rate, track.channels.getD 1)

/-- `decode_audio_file` from track selection onward (file opening, format
probing and decoder construction are not touched by any claim and are
omitted): run the decode loop, fail on an empty accumulator, mix down to
mono, and resample unless the source rate already equals the target. -/
def decode_audio_file {σ : Type} (rs : ResamplerSpec σ) (tracks : List Track)
    (events : List ReadEvent) : Except DecodeError (List ℚ) :=
  match selectTrack tracks with
  | .error e => .error e
  | .ok (track_id, source_sample_rate, channels) =>
    match decodeLoop track_id [] events with
    | .packetReadError => .error .packetReadError
    | .fatalDecodeError => .error .fatalDecodeError
    | .exhausted => .error .streamExhausted
    | .ok interleaved_samples =>
      if interleaved_samples.isEmpty then .error .emptyDecodeResult
      else
        let mono_samples := mixToMono channels interleaved_samples
        if source_sample_rate ≠ TARGET_SAMPLE_RATE then
          match resample rs mono_samples source_sample_rate TARGET_SAMPLE_RATE with
          | none => .error .resampleError
          | some out => .ok out
        else .ok mono_samples

/-! ### Chunking lemmas -/

theorem chunks_cover {α : Type} (c : Nat) (hc : 0 < c) (xs : List α) :
    xs.length ≤ (chunks c xs).length * c := by
  suffices H : ∀ (n : Nat) (ys : List α), ys.length ≤ n →
      ys.length ≤ (chunks c ys).length * c from H xs.length xs le_rfl
  intro n
  induction n with
  | zero =>
    intro ys hy
    rw [chunks]
    simp_all
  | succ n ih =>
    intro ys hy
    rw [chunks]
    split
    · next h =>
      rcases h with h | h
      · omega
      · simp [h]
    · next h =>
      push_neg at h
      have hdrop : (ys.drop c).length ≤ n := by
        simp only [List.length_drop]
        omega
      have hrec := ih (ys.drop c) hdrop
      simp only [List.length_drop] at hrec
      simp only [List.length_cons]
      have hmul : ((chunks c (ys.drop c)).length + 1) * c
          = (chunks c (ys.drop c)).length * c + c := Nat.succ_mul _ _
      omega

theorem chunks_chunk_le {α : Type} (c : Nat) (xs : List α) :
    ∀ ch ∈ chunks c xs, ch.length ≤ c := by
  suffices H : ∀ (n : Nat) (ys : List α), ys.length ≤ n →
      ∀ ch ∈ chunks c ys, ch.length ≤ c from H xs.length xs le_rfl
  intro n
  induction n with
  | zero =>
    intro ys hy
    rw [chunks]
    simp_all
  | succ n ih =>
    intro ys hy
    rw [chunks]
    split
    · simp
    · next h =>
      push_neg at h
      intro ch hch
      rcases List.mem_cons.mp hch with rfl | hmem
      · exact List.length_take_le _ _
      · exact ih (ys.drop c) (by simp only [List.length_drop]; omega) ch hmem

theorem chunksExact_length {α : Type} (c : Nat) (hc : 0 < c) (xs : List α) :
    (chunksExact c xs).length = xs.length / c := by
  suffices H : ∀ (n : Nat) (ys : List α), ys.length ≤ n →
      (chunksExact c ys).length = ys.length / c from H xs.length xs le_rfl
  intro n
  induction n with
  | zero =>
    intro ys hy
    rw [chunksExact]
    have hz : ys.length = 0 := by omega
    simp [hz, Nat.pos_iff_ne_zero.mp hc]
  | succ n ih =>
    intro ys hy
    rw [chunksExact]
    split
    · next h =>
      rcases h with h | h
      · omega
      · simp [Nat.div_eq_of_lt h]
    · next h =>
      push_neg at h
      have hdrop : (ys.drop c).length ≤ n := by
        simp only [List.length_drop]
        omega
      rw [List.length_cons, ih (ys.drop c) hdrop, List.length_drop]
      obtain ⟨m, hm⟩ : ∃ m, ys.length = m + c := ⟨ys.length - c, by omega⟩
      rw [hm]
      rw [Nat.add_sub_cancel, Nat.add_div_right _ hc]

theorem chunksExact_getElem {α : Type} (c : Nat) (hc : 0 < c) :
    ∀ (i : Nat) (xs : List α), i < xs.length / c →
      (chunksExact c xs)[i]? = some ((xs.drop (i * c)).take c) := by
  intro i
  induction i with
  | zero =>
    intro xs h
    rw [chunksExact]
    split
    · next h2 =>
      rcases h2 with h2 | h2
      · omega
      · rw [Nat.div_eq_of_lt h2] at h
        omega
    · simp
  | succ i ih =>
    intro xs h
    have hcle : c ≤ xs.length := by
      by_contra hlt
      push_neg at hlt
      rw [Nat.div_eq_of_lt hlt] at h
      omega
    rw [chunksExact]
    split
    · next h2 =>
      rcases h2 with h2 | h2
      · omega
      · omega
    · next h2 =>
      simp only [List.getElem?_cons_succ]
      have hdiv : i < (xs.drop c).length / c := by
        obtain ⟨m, hm⟩ : ∃ m, xs.length = m + c := ⟨xs.length - c, by omega⟩
        simp only [List.length_drop, hm, Nat.add_sub_cancel]
        rw [hm, Nat.add_div_right _ hc] at h
        omega
      rw [ih (xs.drop c) hdiv, List.drop_drop]
      have : c + i * c = (i + 1) * c := by
        rw [Nat.succ_mul, Nat.add_comm]
      rw [this]

/-! ### Arithmetic lemmas for the expected output length -/

theorem le_mul_expected_len (R a : Nat) (hR : 0 < R) :
    a ≤ R * ((a + (R - 1)) / R) := by
  have hdm := Nat.div_add_mod (a + (R - 1)) R
  have hml := Nat.mod_lt (a + (R - 1)) hR
  omega

theorem expected_len_le_mul (R T L m : Nat) (hR : 0 < R) (hLm : L ≤ m * CHUNK_SIZE) :
    expected_len L T R ≤ m * expected_len CHUNK_SIZE T R := by
  have h1 : CHUNK_SIZE * T ≤ R * expected_len CHUNK_SIZE T R :=
    le_mul_expected_len R (CHUNK_SIZE * T) hR
  have h2 : L * T ≤ R * (m * expected_len CHUNK_SIZE T R) := calc
    L * T ≤ m * CHUNK_SIZE * T := Nat.mul_le_mul_right T hLm
    _ = m * (CHUNK_SIZE * T) := Nat.mul_assoc m CHUNK_SIZE T
    _ ≤ m * (R * expected_len CHUNK_SIZE T R) := Nat.mul_le_mul_left m h1
    _ = R * (m * expected_len CHUNK_SIZE T R) := Nat.mul_left_comm m R _
  have h3 : L * T + (R - 1) < (m * expected_len CHUNK_SIZE T R + 1) * R := by
    have he : (m * expected_len CHUNK_SIZE T R + 1) * R
        = R * (m * expected_len CHUNK_SIZE T R) + R := by
      rw [Nat.add_mul, Nat.one_mul, Nat.mul_comm]
    omega
  have h4 := (Nat.div_lt_iff_lt_mul hR).mpr h3
  have hgoal : expected_len L T R = (L * T + (R - 1)) / R := rfl
  rw [hgoal]
  omega

/-! ### Resampler processing loop -/

theorem padChunk_length (chunk : List ℚ) (h : chunk.length ≤ CHUNK_SIZE) :
    (padChunk chunk).length = CHUNK_SIZE := by
  unfold padChunk
  split
  · next hlt =>
    simp only [List.length_append, List.length_replicate]
    omega
  · next hge => omega

theorem processChunks_spec {σ : Type} (rs : ResamplerSpec σ) (B : Nat)
    (hproc : ∀ (st : σ) (block : List ℚ), block.length = CHUNK_SIZE →
      ∃ p : σ × List ℚ, rs.process st block = some p ∧ B ≤ p.2.length) :
    ∀ (cs : List (List ℚ)) (st : σ), (∀ ch ∈ cs, ch.length ≤ CHUNK_SIZE) →
      ∃ out : List ℚ, processChunks rs st cs = some out ∧ cs.length * B ≤ out.length := by
  intro cs
  induction cs with
  | nil =>
    intro st _
    exact ⟨[], rfl, by simp⟩
  | cons c cs ih =>
    intro st hch
    have hc : c.length ≤ CHUNK_SIZE := hch c (by simp)
    obtain ⟨⟨st2, o⟩, hp, hBo⟩ := hproc st (padChunk c) (padChunk_length c hc)
    have hBo2 : B ≤ o.length := hBo
    obtain ⟨out, hrec, hlen⟩ := ih st2 (fun ch h => hch ch (by simp [h]))
    refine ⟨o ++ out, ?_, ?_⟩
    · simp only [processChunks, hp, hrec]
    · simp only [List.length_append, List.length_cons]
      have hmul : (cs.length + 1) * B = cs.length * B + B := Nat.succ_mul _ _
      omega

/-- Core length property of `resample`: whenever the resampler constructs
and every `process` call on a full-size block succeeds with at least
`ceil(CHUNK_SIZE * to_hz / from_hz)` output samples (the spec's contract
for the external block resampler), the returned buffer has length exactly
`ceil(len * to_hz / from_hz)`: the truncation discards the overshoot. -/
theorem resample_length_core {σ : Type} (rs : ResamplerSpec σ) (from_hz to_hz : Nat)
    (samples : List ℚ) (hf : 0 < from_hz)
    (hnew : ∃ st, rs.new from_hz to_hz CHUNK_SIZE = some st)
    (hproc : ∀ (st : σ) (block : List ℚ), block.length = CHUNK_SIZE →
      ∃ p : σ × List ℚ, rs.process st block = some p ∧
        expected_len CHUNK_SIZE to_hz from_hz ≤ p.2.length) :
    (resample rs samples from_hz to_hz).map List.length
      = some (expected_len samples.length to_hz from_hz) := by
  obtain ⟨st, hst⟩ := hnew
  obtain ⟨out, hout, hlen⟩ := processChunks_spec rs _ hproc (chunks CHUNK_SIZE samples) st
    (chunks_chunk_le CHUNK_SIZE samples)
  simp only [resample, hst, hout, Option.map_some']
  have hcover := chunks_cover CHUNK_SIZE (by norm_num [CHUNK_SIZE]) samples
  have hexp := expected_len_le_mul from_hz to_hz samples.length
    (chunks CHUNK_SIZE samples).length hf hcover
  simp only [List.length_take]
  congr 1
  omega

/-- Length behaviour of `resample` with the spec-modelled block resampler. -/
theorem resample_spec_len (from_hz to_hz : Nat) (hf : 0 < from_hz) (ht : 0 < to_hz)
    (samples : List ℚ) :
    (resample (specResampler from_hz to_hz) samples from_hz to_hz).map List.length
      = some (expected_len samples.length to_hz from_hz) := by
  apply resample_length_core _ _ _ _ hf
  · refine ⟨(), ?_⟩
    simp only [specResampler]
    rw [if_neg]
    push_neg
    omega
  · intro st block hb
    exact ⟨((), List.replicate (expected_len CHUNK_SIZE to_hz from_hz) 0), rfl, by simp⟩

/-! ### Decode loop lemmas -/

theorem decodeLoop_skip_good (track_id : Nat) :
    ∀ (pre : List ReadEvent) (acc : List ℚ) (k : List ReadEvent),
      (∀ e ∈ pre, okEvent track_id e = true) →
      ∃ acc2, decodeLoop track_id acc (pre ++ k) = decodeLoop track_id acc2 k := by
  intro pre
  induction pre with
  | nil =>
    intro acc k _
    exact ⟨acc, rfl⟩
  | cons e pre ih =>
    intro acc k hall
    have he : okEvent track_id e = true := hall e (by simp)
    have hall2 : ∀ e2 ∈ pre, okEvent track_id e2 = true :=
      fun e2 h2 => hall e2 (by simp [h2])
    cases e with
    | endOfStream => simp [okEvent] at he
    | readError => simp [okEvent] at he
    | packet tid o =>
      by_cases htid : tid = track_id
      · subst htid
        simp only [okEvent, if_pos rfl] at he
        cases o with
        | recoverable =>
          simp only [List.cons_append, decodeLoop, ne_eq, not_true_eq_false, if_false]
          exact ih acc k hall2
        | fatal => simp at he
        | ok frames =>
          simp only [List.cons_append, decodeLoop, ne_eq, not_true_eq_false, if_false]
          by_cases hz : frames.length = 0
          · rw [if_pos hz]
            exact ih acc k hall2
          · rw [if_neg hz]
            exact ih (acc ++ frames.flatten) k hall2
      · simp only [List.cons_append, decodeLoop, ne_eq, htid, not_false_eq_true, if_true]
        exact ih acc k hall2

theorem decodeLoop_ok_imp_eof (track_id : Nat) :
    ∀ (events : List ReadEvent) (acc s : List ℚ),
      decodeLoop track_id acc events = LoopResult.ok s →
      ∃ pre rest, events = pre ++ ReadEvent.endOfStream :: rest := by
  intro events
  induction events with
  | nil =>
    intro acc s h
    simp [decodeLoop] at h
  | cons e rest ih =>
    intro acc s h
    cases e with
    | endOfStream => exact ⟨[], rest, rfl⟩
    | readError => simp [decodeLoop] at h
    | packet tid o =>
      have hnext : ∃ acc2, decodeLoop track_id acc2 rest = LoopResult.ok s := by
        by_cases htid : tid = track_id
        · subst htid
          simp only [decodeLoop, ne_eq, not_true_eq_false, if_false] at h
          cases o with
          | recoverable => exact ⟨acc, h⟩
          | fatal => simp at h
          | ok frames =>
            dsimp only at h
            by_cases hz : frames.length = 0
            · rw [if_pos hz] at h
              exact ⟨acc, h⟩
            · rw [if_neg hz] at h
              exact ⟨acc ++ frames.flatten, h⟩
        · simp only [decodeLoop, ne_eq, htid, not_false_eq_true, if_true] at h
          exact ⟨acc, h⟩
      obtain ⟨acc2, h2⟩ := hnext
      obtain ⟨pre, rest2, hsplit⟩ := ih acc2 s h2
      exact ⟨ReadEvent.packet tid o :: pre, rest2, by rw [hsplit]; rfl⟩

theorem flatten_length_of_wf (channels : Nat) :
    ∀ frames : List (List ℚ), frames.all (fun f => f.length == channels) = true →
      frames.flatten.length = frames.length * channels := by
  intro frames
  induction frames with
  | nil => simp
  | cons f frames ih =>
    intro h
    simp only [List.all_cons, Bool.and_eq_true, beq_iff_eq] at h
    simp only [List.flatten_cons, List.length_append, List.length_cons, ih h.2, h.1,
      Nat.succ_mul, Nat.add_comm]

theorem decodeLoop_dvd (channels track_id : Nat) :
    ∀ (events : List ReadEvent) (acc s : List ℚ),
      events.all (eventWF channels) = true →
      channels ∣ acc.length →
      decodeLoop track_id acc events = LoopResult.ok s →
      channels ∣ s.length := by
  intro events
  induction events with
  | nil =>
    intro acc s _ _ h
    simp [decodeLoop] at h
  | cons e rest ih =>
    intro acc s hwf hacc h
    simp only [List.all_cons, Bool.and_eq_true] at hwf
    cases e with
    | endOfStream =>
      simp only [decodeLoop, LoopResult.ok.injEq] at h
      exact h ▸ hacc
    | readError => simp [decodeLoop] at h
    | packet tid o =>
      by_cases htid : tid = track_id
      · subst htid
        simp only [decodeLoop, ne_eq, not_true_eq_false, if_false] at h
        cases o with
        | recoverable => exact ih acc s hwf.2 hacc h
        | fatal => simp at h
        | ok frames =>
          dsimp only at h
          by_cases hz : frames.length = 0
          · rw [if_pos hz] at h
            exact ih acc s hwf.2 hacc h
          · rw [if_neg hz] at h
            refine ih (acc ++ frames.flatten) s hwf.2 ?_ h
            have hfl : frames.flatten.length = frames.length * channels :=
              flatten_length_of_wf channels frames hwf.1
            simp only [List.length_append, hfl]
            exact Nat.dvd_add hacc (Dvd.intro_left frames.length rfl)
      · simp only [decodeLoop, ne_eq, htid, not_false_eq_true, if_true] at h
        exact ih acc s hwf.2 hacc h

theorem decodeLoop_drop_recoverable (track_id : Nat) :
    ∀ (pre : List ReadEvent) (acc : List ℚ) (post : List ReadEvent),
      decodeLoop track_id acc (pre ++ ReadEvent.packet track_id DecodeOutcome.recoverable :: post)
        = decodeLoop track_id acc (pre ++ post) := by
  intro pre
  induction pre with
  | nil =>
    intro acc post
    simp only [List.nil_append, decodeLoop, ne_eq, not_true_eq_false, if_false]
  | cons e pre ih =>
    intro acc post
    cases e with
    | endOfStream => rfl
    | readError => rfl
    | packet tid o =>
      by_cases htid : tid = track_id
      · subst htid
        simp only [List.cons_append, decodeLoop, ne_eq, not_true_eq_false, if_false]
        cases o with
        | recoverable => exact ih acc post
        | fatal => rfl
        | ok frames =>
          dsimp only
          by_cases hz : frames.length = 0
          · rw [if_pos hz, if_pos hz]
            exact ih acc post
          · rw [if_neg hz, if_neg hz]
            exact ih (acc ++ frames.flatten) post
      · simp only [List.cons_append, decodeLoop, ne_eq, htid, not_false_eq_true, if_true]
        exact ih acc post

/-! ### Track selection lemmas -/

theorem find?_first_audio (t : Track) (rest : List Track) (ht : isAudioTrack t = true) :
    ∀ pre : List Track, (∀ u ∈ pre, isAudioTrack u = false) →
      (pre ++ t :: rest).find? isAudioTrack = some t := by
  intro pre
  induction pre with
  | nil =>
    intro _
    exact List.find?_cons_of_pos _ ht
  | cons u pre ih =>
    intro h
    rw [List.cons_append, List.find?_cons_of_neg]
    · exact ih (fun v hv => h v (by simp [hv]))
    · simp [h u (by simp)]

/-! ### Claim theorems -/

/-- Claim C1: for every mono input resampled from rate `from_hz` to rate
`to_hz` (rates positive and distinct, resampler construction succeeds, and
every `process` call on a full-size block succeeds with at least the
rate-proportional `ceil(CHUNK_SIZE * to_hz / from_hz)` output samples — the
spec's contract for the external block resampler, whose natural output may
only overshoot), the buffer returned by `resample` has length exactly
`ceil(len * to_hz / from_hz)`, never more and never less, regardless of the
chunking and of the zero padding of the final partial chunk. -/
theorem resample_output_length {σ : Type} (rs : ResamplerSpec σ) (from_hz to_hz : Nat)
    (samples : List ℚ) (hf : 0 < from_hz) (ht : 0 < to_hz) (hne : from_hz ≠ to_hz)
    (hnew : ∃ st, rs.new from_hz to_hz CHUNK_SIZE = some st)
    (hproc : ∀ (st : σ) (block : List ℚ), block.length = CHUNK_SIZE →
      ∃ p : σ × List ℚ, rs.process st block = some p ∧
        expected_len CHUNK_SIZE to_hz from_hz ≤ p.2.length) :
    (resample rs samples from_hz to_hz).map List.length
      = some (expected_len samples.length to_hz from_hz) :=
  resample_length_core rs from_hz to_hz samples hf hnew hproc

/-- Witness for C1 at a concrete rate pair and input. -/
theorem resample_output_length_witness :
    (resample (specResampler 44100 16000) [1, 2, 3] 44100 16000).map List.length
      = some (expected_len ([1, 2, 3] : List ℚ).length 16000 44100) :=
  resample_output_length (specResampler 44100 16000) 44100 16000 [1, 2, 3]
    (by norm_num) (by norm_num) (by norm_num) ⟨(), rfl⟩
    (fun st block hb =>
      ⟨((), List.replicate (expected_len CHUNK_SIZE 16000 44100) 0), rfl, by simp⟩)

/-- Counterexample to claim C2: the code computes and truncates to the exact
ceiling `ceil(88200 * 16000 / 44100)`, which is 32000 (88200 · 16000 /
44100 = 32000 exactly), not the claimed 31972; `resample` on an 88200-sample
mono input returns 32000 samples. -/
theorem resample_88200_not_31972 :
    expected_len 88200 16000 44100 = 32000 ∧
    (resample (specResampler 44100 16000) (List.replicate 88200 (0 : ℚ)) 44100 16000).map
      List.length = some 32000 ∧
    (32000 : Nat) ≠ 31972 := by
  refine ⟨by norm_num [expected_len], ?_, by norm_num⟩
  rw [resample_spec_len 44100 16000 (by norm_num) (by norm_num)]
  simp only [List.length_replicate]
  norm_num [expected_len]

/-- Claim C2 as amended: a 2-channel input of 88200 frames per channel
(176400 interleaved samples) mixes down to exactly 88200 mono samples and
resamples to exactly `ceil(88200 * 16000 / 44100)` = 32000 samples at the
16000 Hz target rate. -/
theorem stereo_44100_to_16000_lengths (xs : List ℚ) (hlen : xs.length = 176400) :
    (mixToMono 2 xs).length = 88200 ∧
    (resample (specResampler 44100 16000) (mixToMono 2 xs) 44100 16000).map List.length
      = some 32000 := by
  have h1 : (mixToMono 2 xs).length = 88200 := by
    simp only [mixToMono, if_pos (by norm_num : (2 : Nat) > 1), List.length_map]
    rw [chunksExact_length 2 (by norm_num) xs, hlen]
  refine ⟨h1, ?_⟩
  rw [resample_spec_len 44100 16000 (by norm_num) (by norm_num), h1]
  norm_num [expected_len]

/-- Witness for the amended C2 at a concrete input. -/
theorem stereo_44100_to_16000_lengths_witness :
    (mixToMono 2 (List.replicate 176400 (0 : ℚ))).length = 88200 ∧
    (resample (specResampler 44100 16000) (mixToMono 2 (List.replicate 176400 (0 : ℚ)))
      44100 16000).map List.length = some 32000 :=
  stereo_44100_to_16000_lengths (List.replicate 176400 0) (List.length_replicate 176400 0)

/-- Claim C3: for an interleaved buffer whose length is a multiple of the
channel count `C > 1`, the mixdown sets `mono[i]` to the arithmetic mean of
the `C` samples `interleaved[i*C .. i*C+C)` for every frame index `i`; with
`C = 1` the mixdown is the identity. -/
theorem mix_to_mono_mean (C : Nat) (xs : List ℚ) (hC : 1 < C) (hdvd : C ∣ xs.length) :
    (∀ i, i < xs.length / C →
      (mixToMono C xs)[i]? = some (((xs.drop (i * C)).take C).sum / (C : ℚ)))
    ∧ (∀ ys : List ℚ, mixToMono 1 ys = ys) := by
  constructor
  · intro i hi
    simp only [mixToMono, if_pos hC, List.getElem?_map]
    rw [chunksExact_getElem C (by omega) i xs hi]
    rfl
  · intro ys
    simp [mixToMono]

/-- Witness for C3 at a concrete stereo buffer. -/
theorem mix_to_mono_mean_witness :
    (mixToMono 2 [1, 3])[0]? = some (((([1, 3] : List ℚ).drop (0 * 2)).take 2).sum / (2 : ℚ)) :=
  (mix_to_mono_mean 2 [1, 3] (by norm_num) (by simp)).1 0 (by simp)

/-- Claim C4: in the decode loop, a recoverable decode error on a packet of
the selected track causes exactly that packet to be skipped and iteration
to continue (the loop result is the one of the same event list without that
packet), while any other decoder error aborts immediately with the fatal
decode error; a single corrupt packet among otherwise valid ones therefore
never fails the call. -/
theorem corrupt_packet_skipped (track_id : Nat) :
    (∀ (acc : List ℚ) (pre post : List ReadEvent),
      decodeLoop track_id acc
          (pre ++ ReadEvent.packet track_id DecodeOutcome.recoverable :: post)
        = decodeLoop track_id acc (pre ++ post)) ∧
    (∀ (acc : List ℚ) (rest : List ReadEvent),
      decodeLoop track_id acc (ReadEvent.packet track_id DecodeOutcome.fatal :: rest)
        = LoopResult.fatalDecodeError) ∧
    (∀ (pre post : List ReadEvent),
      (∀ e ∈ pre ++ post, okEvent track_id e = true) →
      ∃ s, decodeLoop track_id []
          (pre ++ ReadEvent.packet track_id DecodeOutcome.recoverable ::
            (post ++ [ReadEvent.endOfStream]))
        = LoopResult.ok s) := by
  refine ⟨fun acc pre post => decodeLoop_drop_recoverable track_id pre acc post, ?_, ?_⟩
  · intro acc rest
    simp [decodeLoop]
  · intro pre post hall
    rw [decodeLoop_drop_recoverable track_id pre [] (post ++ [ReadEvent.endOfStream])]
    rw [show pre ++ (post ++ [ReadEvent.endOfStream])
        = (pre ++ post) ++ [ReadEvent.endOfStream] from (List.append_assoc pre post _).symm]
    obtain ⟨acc2, h2⟩ :=
      decodeLoop_skip_good track_id (pre ++ post) [] [ReadEvent.endOfStream] hall
    rw [h2]
    exact ⟨acc2, rfl⟩

/-- Witness for C4: one corrupt packet between two valid ones, then
end-of-stream; the loop still succeeds. -/
theorem corrupt_packet_skipped_witness :
    ∃ s, decodeLoop 0 []
        ([ReadEvent.packet 0 (DecodeOutcome.ok [[1]])] ++
          ReadEvent.packet 0 DecodeOutcome.recoverable ::
            ([ReadEvent.packet 0 (DecodeOutcome.ok [[2]])] ++ [ReadEvent.endOfStream]))
      = LoopResult.ok s :=
  (corrupt_packet_skipped 0).2.2
    [ReadEvent.packet 0 (DecodeOutcome.ok [[1]])]
    [ReadEvent.packet 0 (DecodeOutcome.ok [[2]])]
    (by
      intro e he
      simp only [List.cons_append, List.nil_append, List.mem_cons,
        List.not_mem_nil, or_false] at he
      rcases he with rfl | rfl <;> rfl)

/-- Claim C5: with only non-aborting packets before it, an end-of-stream
condition terminates the packet iteration successfully while any other read
error aborts with the packet-read error; and the loop terminates
successfully only by reaching an end-of-stream event. -/
theorem packet_iteration_termination (track_id : Nat) :
    (∀ (acc : List ℚ) (pre rest : List ReadEvent),
      (∀ e ∈ pre, okEvent track_id e = true) →
      (∃ s, decodeLoop track_id acc (pre ++ ReadEvent.endOfStream :: rest)
          = LoopResult.ok s) ∧
      decodeLoop track_id acc (pre ++ ReadEvent.readError :: rest)
        = LoopResult.packetReadError) ∧
    (∀ (acc s : List ℚ) (events : List ReadEvent),
      decodeLoop track_id acc events = LoopResult.ok s →
      ∃ pre rest, events = pre ++ ReadEvent.endOfStream :: rest) := by
  constructor
  · intro acc pre rest hall
    constructor
    · obtain ⟨acc2, h⟩ :=
        decodeLoop_skip_good track_id pre acc (ReadEvent.endOfStream :: rest) hall
      rw [h]
      exact ⟨acc2, rfl⟩
    · obtain ⟨acc2, h⟩ :=
        decodeLoop_skip_good track_id pre acc (ReadEvent.readError :: rest) hall
      rw [h]
      rfl
  · intro acc s events h
    exact decodeLoop_ok_imp_eof track_id events acc s h

/-- Witness for C5 with an empty prefix. -/
theorem packet_iteration_termination_witness :
    (∃ s, decodeLoop 0 [] ([] ++ ReadEvent.endOfStream :: []) = LoopResult.ok s) ∧
    decodeLoop 0 [] ([] ++ ReadEvent.readError :: []) = LoopResult.packetReadError :=
  (packet_iteration_termination 0).1 [] [] [] (by simp)

/-- Claim C7: for an event stream whose decoded blocks are well formed with
respect to the selected track's channel count (each frame carries exactly
`channels` samples), a successful decode loop leaves an interleaved buffer
whose length is an exact multiple of the channel count; decoded blocks of
zero frames are skipped and never appended. -/
theorem interleaved_multiple_of_channels (channels track_id : Nat)
    (events : List ReadEvent) (samples : List ℚ)
    (hwf : events.all (eventWF channels) = true)
    (hok : decodeLoop track_id [] events = LoopResult.ok samples) :
    channels ∣ samples.length ∧
    ∀ (acc : List ℚ) (rest : List ReadEvent),
      decodeLoop track_id acc (ReadEvent.packet track_id (DecodeOutcome.ok []) :: rest)
        = decodeLoop track_id acc rest := by
  constructor
  · exact decodeLoop_dvd channels track_id events [] samples hwf (by simp) hok
  · intro acc rest
    simp [decodeLoop]

/-- Witness for C7: a stereo block of one frame gives a 2-sample buffer. -/
theorem interleaved_multiple_of_channels_witness :
    2 ∣ ([1, 2] : List ℚ).length ∧
    ∀ (acc : List ℚ) (rest : List ReadEvent),
      decodeLoop 0 acc (ReadEvent.packet 0 (DecodeOutcome.ok []) :: rest)
        = decodeLoop 0 acc rest :=
  interleaved_multiple_of_channels 2 0
    [ReadEvent.packet 0 (DecodeOutcome.ok [[1, 2]]), ReadEvent.endOfStream]
    [1, 2] rfl rfl

/-- Claim C6: when the decode loop completes with an empty interleaved
accumulator, `decode_audio_file` fails with the empty-result error instead
of returning an empty buffer, for every resampler and every track
selection that reaches the loop. -/
theorem empty_accumulator_fails {σ : Type} (rs : ResamplerSpec σ) (tracks : List Track)
    (events : List ReadEvent) (track : Track) (r : Nat)
    (hfind : tracks.find? isAudioTrack = some track)
    (hr : track.sampleRate = some r)
    (hloop : decodeLoop track.id [] events = LoopResult.ok []) :
    decode_audio_file rs tracks events = Except.error DecodeError.emptyDecodeResult := by
  simp [decode_audio_file, selectTrack, hfind, hr, hloop]

/-- Witness for C6: a stream with no decodable packet fails with the
empty-result error. -/
theorem empty_accumulator_fails_witness :
    decode_audio_file noResampler [Track.mk 1 (some 44100) (some 1) 0]
        [ReadEvent.endOfStream]
      = Except.error DecodeError.emptyDecodeResult :=
  empty_accumulator_fails noResampler _ _ (Track.mk 1 (some 44100) (some 1) 0) 44100
    rfl rfl rfl

/-- Claim C8: when the selected track's sample rate equals the 16000 Hz
target, `decode_audio_file` returns the mono-mixed buffer unchanged, for
every resampler — including one whose construction always fails, so no
resampler is constructed on this path. -/
theorem same_rate_identity {σ : Type} (rs : ResamplerSpec σ) (tracks : List Track)
    (events : List ReadEvent) (track : Track) (samples : List ℚ)
    (hfind : tracks.find? isAudioTrack = some track)
    (hr : track.sampleRate = some TARGET_SAMPLE_RATE)
    (hloop : decodeLoop track.id [] events = LoopResult.ok samples)
    (hne : samples ≠ []) :
    decode_audio_file rs tracks events
      = Except.ok (mixToMono (track.channels.getD 1) samples) := by
  simp only [decode_audio_file, selectTrack, hfind, hr, hloop]
  cases samples with
  | nil => exact absurd rfl hne
  | cons a l => simp

/-- Witness for C8: a 16000 Hz mono track is returned unchanged even with a
resampler that cannot be constructed. -/
theorem same_rate_identity_witness :
    decode_audio_file noResampler [Track.mk 1 (some 16000) (some 1) 0]
        [ReadEvent.packet 0 (DecodeOutcome.ok [[1]]), ReadEvent.endOfStream]
      = Except.ok (mixToMono ((Track.mk 1 (some 16000) (some 1) 0).channels.getD 1) [1]) :=
  same_rate_identity noResampler _ _ (Track.mk 1 (some 16000) (some 1) 0) [1]
    rfl rfl rfl (by simp)

/-- Claim C9: track selection picks the first track whose codec is not the
null marker and fails with the no-audio-track error when none exists; a
missing sample rate on the selected track is a fatal error, while a missing
channel count defaults to 1 without error. -/
theorem track_selection (tracks pre rest : List Track) (t : Track)
    (hsplit : tracks = pre ++ t :: rest)
    (hpre : ∀ u ∈ pre, u.codec = CODEC_TYPE_NULL)
    (ht : t.codec ≠ CODEC_TYPE_NULL) :
    (t.sampleRate = none → selectTrack tracks = Except.error DecodeError.missingSampleRate) ∧
    (∀ r, t.sampleRate = some r →
      selectTrack tracks = Except.ok (t.id, r, t.channels.getD 1) ∧
      (t.channels = none → t.channels.getD 1 = 1)) ∧
    (∀ ts : List Track, (∀ u ∈ ts, u.codec = CODEC_TYPE_NULL) →
      selectTrack ts = Except.error DecodeError.noAudioTrack) := by
  have hfind : tracks.find? isAudioTrack = some t := by
    rw [hsplit]
    exact find?_first_audio t rest (by simpa [isAudioTrack, bne_iff_ne] using ht) pre
      (fun u hu => by simp [isAudioTrack, hpre u hu])
  refine ⟨?_, ?_, ?_⟩
  · intro hr
    simp [selectTrack, hfind, hr]
  · intro r hr
    constructor
    · simp [selectTrack, hfind, hr]
    · intro hc
      simp [hc]
  · intro ts hts
    have hnone : ts.find? isAudioTrack = none :=
      List.find?_eq_none.mpr (fun u hu => by simp [isAudioTrack, hts u hu])
    simp [selectTrack, hnone]

/-- Witness for C9: the first non-null track is selected past a null one,
with the channel count defaulting to 1. -/
theorem track_selection_witness :
    selectTrack [Track.mk 0 none none 5, Track.mk 1 (some 44100) none 7]
      = Except.ok ((Track.mk 1 (some 44100) none 7).id, 44100,
          (Track.mk 1 (some 44100) none 7).channels.getD 1) :=
  ((track_selection [Track.mk 0 none none 5, Track.mk 1 (some 44100) none 7]
      [Track.mk 0 none none 5] [] (Track.mk 1 (some 44100) none 7) rfl
      (by intro u hu; simp at hu; rw [hu]; rfl) (by simp [CODEC_TYPE_NULL])).2.1
    44100 rfl).1

/-- Claim C10: for channel count `C > 1` the mono buffer has exactly
`floor(len / C)` samples — a trailing partial frame is dropped by the
mixdown — and since the emptiness check precedes the mixdown, an
interleaved buffer of length strictly between 0 and `C` makes the call
succeed with an empty output vector. -/
theorem dropped_trailing_frame :
    (∀ (channels : Nat) (xs : List ℚ), 1 < channels →
      (mixToMono channels xs).length = xs.length / channels) ∧
    (∀ (σ : Type) (rs : ResamplerSpec σ) (tracks : List Track) (events : List ReadEvent)
      (track : Track) (r : Nat) (samples : List ℚ),
      tracks.find? isAudioTrack = some track →
      track.sampleRate = some r →
      decodeLoop track.id [] events = LoopResult.ok samples →
      0 < samples.length →
      samples.length < track.channels.getD 1 →
      (r = TARGET_SAMPLE_RATE ∨ ∃ st, rs.new r TARGET_SAMPLE_RATE CHUNK_SIZE = some st) →
      decode_audio_file rs tracks events = Except.ok []) := by
  constructor
  · intro channels xs h
    simp only [mixToMono, if_pos h, List.length_map]
    exact chunksExact_length channels (by omega) xs
  · intro σ rs tracks events track r samples hfind hr hloop hpos hlt hres
    have hch : 1 < track.channels.getD 1 := by omega
    have hmono : mixToMono (track.channels.getD 1) samples = [] := by
      simp only [mixToMono, if_pos hch]
      rw [chunksExact, dif_pos (Or.inr hlt)]
      rfl
    have hne : samples ≠ [] := by
      cases samples with
      | nil => simp at hpos
      | cons a l => simp
    simp only [decode_audio_file, selectTrack, hfind, hr, hloop]
    cases samples with
    | nil => exact absurd rfl hne
    | cons a l =>
      simp only [List.isEmpty_cons, Bool.false_eq_true, if_false]
      by_cases hrt : r = TARGET_SAMPLE_RATE
      · subst hrt
        simp [hmono]
      · rcases hres with hres | ⟨st, hst⟩
        · exact absurd hres hrt
        · rw [if_pos hrt, hmono]
          simp only [resample, hst]
          rw [chunks]
          simp [processChunks]

/-- Witness for C10: a 2-sample buffer on a 3-channel track yields an empty
successful output. -/
theorem dropped_trailing_frame_witness :
    (mixToMono 2 [1]).length = ([1] : List ℚ).length / 2 ∧
    decode_audio_file noResampler [Track.mk 1 (some 16000) (some 3) 0]
        [ReadEvent.packet 0 (DecodeOutcome.ok [[1, 2]]), ReadEvent.endOfStream]
      = Except.ok [] :=
  ⟨dropped_trailing_frame.1 2 [1] (by norm_num),
   dropped_trailing_frame.2 Unit noResampler [Track.mk 1 (some 16000) (some 3) 0]
     [ReadEvent.packet 0 (DecodeOutcome.ok [[1, 2]]), ReadEvent.endOfStream]
     (Track.mk 1 (some 16000) (some 3) 0) 16000 [1, 2]
     rfl rfl rfl (by norm_num) (by norm_num) (Or.inl rfl)⟩

end Handy
